import Mathlib

/-!
Shallow embedding of the VegSeg backend (src/backend/main.py): the patch
tiler `extract_patches`, the mask reconstructor `reconstruct_from_patches`,
the vegetation statistic of `process_image_file`, the task lifecycle of the
two background jobs, and the file-path dispatch used for URL downloads.

Images, patches and masks are modelled as total functions `Nat → Nat → Nat`
(pixel value at row `i`, column `j`); the claims only ever evaluate them
inside the relevant bounds.  Class values are small naturals, so the
float32 accumulators of the reconstructor are exact and its final
`astype(np.uint8)` cast is natural-number truncating division.
-/

namespace VegSeg

/-- Python `range(0, stop, stride)` as used by the tiling loops of
`extract_patches`: the multiples of `stride` strictly below `stop`. -/
def strideRange (stop stride : Nat) : List Nat :=
  (List.range ((stop + stride - 1) / stride)).map (fun k => k * stride)

/-- The check `if (y, x) not in positions: positions.append((y, x))` of the
edge-handling loops in `extract_patches`. -/
def addIfAbsent (pos : List (Nat × Nat)) (p : Nat × Nat) : List (Nat × Nat) :=
  if p ∈ pos then pos else pos ++ [p]

/-- Tile origins emitted by `extract_patches` on a padded image of height
`h` and width `w` (both at least `ps`): a row-major primary sweep at stride
`ps`; then, when `h % ps ≠ 0`, a bottom edge row anchored at `y = h - ps`;
when `w % ps ≠ 0`, a right edge column anchored at `x = w - ps`; and when
both, the bottom-right corner — each skipping origins already present. -/
def extract_positions (h w ps : Nat) : List (Nat × Nat) :=
  let ys := strideRange (h - ps + 1) ps
  let xs := strideRange (w - ps + 1) ps
  let positions := ys.flatMap (fun y => xs.map (fun x => (y, x)))
  let positions := if h % ps ≠ 0 then
    xs.foldl (fun acc x => addIfAbsent acc (h - ps, x)) positions else positions
  let positions := if w % ps ≠ 0 then
    ys.foldl (fun acc y => addIfAbsent acc (y, w - ps)) positions else positions
  if h % ps ≠ 0 ∧ w % ps ≠ 0 then addIfAbsent positions (h - ps, w - ps) else positions

/-- Pixel `(i, j)` lies in the `ps × ps` region of the tile whose top-left
origin is `p = (y, x)`. -/
def covers (ps : Nat) (p : Nat × Nat) (i j : Nat) : Prop :=
  p.1 ≤ i ∧ i < p.1 + ps ∧ p.2 ≤ j ∧ j < p.2 + ps

instance coversDecidable (ps : Nat) (p : Nat × Nat) (i j : Nat) :
    Decidable (covers ps p i j) :=
  inferInstanceAs (Decidable (p.1 ≤ i ∧ i < p.1 + ps ∧ p.2 ≤ j ∧ j < p.2 + ps))

/-- Index map of numpy end-padding with `mode='reflect'`: positions beyond
the original extent `n` reflect back into `[0, n)` without repeating the
edge sample, with period `2 * (n - 1)`; a length-1 axis replicates its only
sample. -/
def reflectIdx (n i : Nat) : Nat :=
  if n ≤ 1 then 0
  else
    let p := 2 * (n - 1)
    let m := i % p
    if m < n then m else p - m

/-- `np.pad(image, ((0, pad_h), (0, pad_w), (0, 0)), mode='reflect')` on an
image of original extent `h × w`, as a total pixel function. -/
def padReflect (h w : Nat) (img : Nat → Nat → Nat) : Nat → Nat → Nat :=
  fun i j => img (reflectIdx h i) (reflectIdx w j)

/-- `extract_patches(image, patch_size)`: pads the image by reflection when
either dimension is below `ps` (so the padded dimensions are
`max h ps × max w ps`, exactly the `h + max(0, ps - h)` of the source),
then returns the emitted tile origins, the padded shape, and the padded
image the patches are cut from. -/
def extract_patches (h w ps : Nat) (img : Nat → Nat → Nat) :
    List (Nat × Nat) × (Nat × Nat) × (Nat → Nat → Nat) :=
  let padded := if h < ps ∨ w < ps then padReflect h w img else img
  let hp := max h ps
  let wp := max w ps
  (extract_positions hp wp ps, (hp, wp), padded)

/-- One loop iteration of `reconstruct_from_patches`: add the prediction
into the sum accumulator over its tile region and bump the overlap counter
there by one.  The state is the pair `(output_mask, count_mask)`. -/
def accumPatch (ps : Nat) (st : (Nat → Nat → Nat) × (Nat → Nat → Nat))
    (pp : (Nat → Nat → Nat) × Nat × Nat) : (Nat → Nat → Nat) × (Nat → Nat → Nat) :=
  (fun i j => if covers ps pp.2 i j then st.1 i j + pp.1 (i - pp.2.1) (j - pp.2.2)
    else st.1 i j,
   fun i j => if covers ps pp.2 i j then st.2 i j + 1 else st.2 i j)

/-- `reconstruct_from_patches(predictions, positions, original_shape,
patch_size)`: fold the prediction/origin pairs through the accumulators
(both zero-initialised), then divide the sum by `np.maximum(count, 1)` and
truncate to an integer class value (`astype(np.uint8)`). -/
def reconstruct_from_patches (preds : List ((Nat → Nat → Nat) × Nat × Nat))
    (ps : Nat) : Nat → Nat → Nat :=
  fun i j =>
    let st := preds.foldl (accumPatch ps) (fun _ _ => 0, fun _ _ => 0)
    st.1 i j / max (st.2 i j) 1

/-- Specification-side accumulated class-value sum at pixel `(i, j)`. -/
def sumAt (preds : List ((Nat → Nat → Nat) × Nat × Nat)) (ps i j : Nat) : Nat :=
  (preds.map (fun pp => if covers ps pp.2 i j then pp.1 (i - pp.2.1) (j - pp.2.2)
    else 0)).sum

/-- Specification-side overlap count at pixel `(i, j)`. -/
def countAt (preds : List ((Nat → Nat → Nat) × Nat × Nat)) (ps i j : Nat) : Nat :=
  (preds.map (fun pp => if covers ps pp.2 i j then 1 else 0)).sum

/-- Round-to-nearest of the quotient `a / b` (halves up), the reading of
`round(sum / max(count, 1))` used by the specification sentence. -/
def roundDiv (a b : Nat) : Nat := (2 * a + b) / (2 * b)

/-- Concrete reconstructor input: a 2×3 image tiled with `ps = 2` into the
origins `(0, 0)` and `(0, 1)` (right-edge tile), the first prediction
constantly class 1, the second constantly class 2.  Pixel `(0, 1)` is
covered by both tiles. -/
def cexPreds : List ((Nat → Nat → Nat) × Nat × Nat) :=
  [(fun _ _ => 1, (0, 0)), (fun _ _ => 2, (0, 1))]

/-- Concrete reconstructor input with a single constant prediction of class
3 at origin `(0, 0)`, fully covering a 2×2 extent with `ps = 2`. -/
def constPreds : List ((Nat → Nat → Nat) × Nat × Nat) :=
  [(fun _ _ => 3, (0, 0))]

/-- `VEGETATION_CLASSES = [1, 2, 3, 4, 5, 6]` of main.py: all non-background
classes count as vegetation. -/
def VEGETATION_CLASSES : List Nat := [1, 2, 3, 4, 5, 6]

/-- Membership test of `np.isin(segmentation_mask, VEGETATION_CLASSES)` for
a single pixel class value. -/
def isVeg (c : Nat) : Bool := VEGETATION_CLASSES.contains c

/-- `binary_mask.sum()` over a flattened mask: the number of pixels whose
class is in the vegetation set. -/
def vegCount (mask : List Nat) : Nat := (mask.filter isVeg).length

/-- Python `round(x, 2)`: round to two decimal places (exact tie behaviour
is irrelevant to the claims settled here). -/
def round2 (q : ℚ) : ℚ := (round (q * 100) : ℚ) / 100

/-- `round((binary_mask.sum() / binary_mask.size) * 100, 2)` of
`process_image_file`, over a flattened mask. -/
def vegetation_percentage (mask : List Nat) : ℚ :=
  round2 ((vegCount mask : ℚ) / (mask.length : ℚ) * 100)

/-- One record of the in-memory `tasks` map: status string, integer
progress, human-readable message, and the optional result payload. -/
structure TaskRecord where
  status : String
  progress : Nat
  message : String
  result : Option Unit
deriving DecidableEq, Inhabited

/-- The record created by the `/segment/upload` endpoint at submission. -/
def uploadInit : TaskRecord :=
  { status := "uploading", progress := 0, message := "Uploading file...",
    result := none }

/-- The record created by the `/segment/url` endpoint at submission. -/
def urlInit : TaskRecord :=
  { status := "queued", progress := 0,
    message := "Task queued for processing...", result := none }

/-- First update of `process_image_file`: processing has started. -/
def stepProcessing (r : TaskRecord) : TaskRecord :=
  { r with status := "processing", progress := 30, message := "Loading image..." }

/-- Second update of `process_image_file`: segmentation is running. -/
def stepSegmenting (r : TaskRecord) : TaskRecord :=
  { r with progress := 50, message := "Running segmentation..." }

/-- Third update of `process_image_file`: results are being generated. -/
def stepGenerating (r : TaskRecord) : TaskRecord :=
  { r with progress := 80, message := "Generating results..." }

/-- Final update of `process_image_file`: completed, result populated. -/
def stepCompleted (r : TaskRecord) : TaskRecord :=
  { r with
      status := "completed"
      progress := 100
      message := "Segmentation completed"
      result := some () }

/-- First update of `process_image_from_url`: the download has started. -/
def stepDownloading (r : TaskRecord) : TaskRecord :=
  { r with
      status := "downloading"
      progress := 10
      message := "Downloading image..." }

/-- The `except` handler of either background job: set status `error` and a
message, leaving progress and result untouched. -/
def setError (msg : String) (r : TaskRecord) : TaskRecord :=
  { r with status := "error", message := msg }

/-- The updates performed by `process_image_file`, in program order. -/
def uploadSteps : List (TaskRecord → TaskRecord) :=
  [stepProcessing, stepSegmenting, stepGenerating, stepCompleted]

/-- The updates performed by `process_image_from_url` when the delegated
`process_image_file` call succeeds, in program order. -/
def urlSteps : List (TaskRecord → TaskRecord) := stepDownloading :: uploadSteps

/-- Run a list of task updates to completion. -/
def applySteps (fs : List (TaskRecord → TaskRecord)) (r : TaskRecord) : TaskRecord :=
  fs.foldl (fun a f => f a) r

/-- The sequence of record states a polling reader can observe while the
updates run: the record before each update and after the last one. -/
def traceAux : List (TaskRecord → TaskRecord) → TaskRecord → List TaskRecord
  | [], r => [r]
  | f :: fs, r => r :: traceAux fs (f r)

/-- Trace of the upload-path background job.  `none` is the unexceptional
run; `some (k, msg)` means the exception `msg` is raised after the first
`k` updates (`k ≤ 3`: nothing after the `completed` update can raise), in
which case the `except Exception` handler of `process_image_file` appends
its error transition. -/
def uploadJobTrace (err : Option (Nat × String)) : List TaskRecord :=
  match err with
  | none => traceAux uploadSteps uploadInit
  | some (k, msg) =>
      traceAux (uploadSteps.take k) uploadInit ++
        [setError ("Processing error: " ++ msg)
          (applySteps (uploadSteps.take k) uploadInit)]

/-- Error message written for the URL path when the exception is raised
after `k` updates: before any upload-path update has run (`k ≤ 1`, i.e.
the model check or the download/save) the outer handler of
`process_image_from_url` fires; later exceptions are caught by the inner
handler of `process_image_file`. -/
def urlErrMsg (k : Nat) (msg : String) : String :=
  if k ≤ 1 then "Error processing URL: " ++ msg else "Processing error: " ++ msg

/-- Trace of the URL-path background job; `some (k, msg)` raises `msg`
after the first `k` updates (`k ≤ 4`). -/
def urlJobTrace (err : Option (Nat × String)) : List TaskRecord :=
  match err with
  | none => traceAux urlSteps urlInit
  | some (k, msg) =>
      traceAux (urlSteps.take k) urlInit ++
        [setError (urlErrMsg k msg) (applySteps (urlSteps.take k) urlInit)]

/-- A record is in a terminal lifecycle state. -/
def isTerminal (r : TaskRecord) : Bool :=
  r.status == "completed" || r.status == "error"

/-- Progress never decreases along a trace. -/
def progressMonotone (tr : List TaskRecord) : Prop :=
  List.Chain' (fun a b => a.progress ≤ b.progress) tr

/-- No transition leaves a terminal record: every record that has a
successor in the trace is non-terminal. -/
def noStepFromTerminal (tr : List TaskRecord) : Prop :=
  List.Chain' (fun a _ => isTerminal a = false) tr

/-- Any transition into `error` keeps the progress value it found. -/
def errorFreezesProgress (tr : List TaskRecord) : Prop :=
  List.Chain' (fun a b => b.status = "error" → b.progress = a.progress) tr

/-- Lower-casing of a path, `str(file_path).lower()`. -/
def toLowerL (s : List Char) : List Char := s.map Char.toLower

/-- Python `str.endswith` on character lists. -/
def endsWithL (s suffix : List Char) : Bool :=
  s.reverse.take suffix.length == suffix.reverse

/-- The dispatch condition of `process_image_file`:
`str(file_path).lower().endswith(('.tif', '.tiff'))` selects the rasterio
(geospatial) loading branch. -/
def usesRasterio (path : List Char) : Bool :=
  endsWithL (toLowerL path) ['.', 't', 'i', 'f'] ||
    endsWithL (toLowerL path) ['.', 't', 'i', 'f', 'f']

/-- The path `UPLOAD_DIR / f"{task_id}_input"` where
`process_image_from_url` saves the downloaded bytes. -/
def urlInputPath (taskId : List Char) : List Char :=
  ['u', 'p', 'l', 'o', 'a', 'd', 's', '/'] ++ taskId ++
    ['_', 'i', 'n', 'p', 'u', 't']

end VegSeg

namespace VegSeg

theorem mem_strideRange {stop stride y : Nat} :
    y ∈ strideRange stop stride ↔
      ∃ k, k < (stop + stride - 1) / stride ∧ k * stride = y := by
  simp [strideRange, List.mem_map, List.mem_range]

theorem strideRange_bound (h ps : Nat) (hle : ps ≤ h) :
    (h - ps + 1 + ps - 1) / ps = h / ps := by
  have hyp : h - ps + 1 + ps - 1 = h := by omega
  rw [hyp]

theorem mem_strideRange_of_le {h ps : Nat} (hle : ps ≤ h)
    {k : Nat} (hk : k < h / ps) : k * ps ∈ strideRange (h - ps + 1) ps := by
  rw [mem_strideRange, strideRange_bound h ps hle]
  exact ⟨k, hk, rfl⟩

theorem mem_strideRange_iff {h ps y : Nat} (hle : ps ≤ h) :
    y ∈ strideRange (h - ps + 1) ps ↔ ∃ k, k < h / ps ∧ k * ps = y := by
  rw [mem_strideRange, strideRange_bound h ps hle]

theorem strideRange_nodup (stop stride : Nat) (hs : 0 < stride) :
    (strideRange stop stride).Nodup := by
  refine List.Nodup.map ?_ (List.nodup_range _)
  intro a b hab
  exact Nat.eq_of_mul_eq_mul_right hs hab

theorem strideRange_length (stop stride : Nat) :
    (strideRange stop stride).length = (stop + stride - 1) / stride := by
  simp [strideRange]

theorem primary_eq_product (ys xs : List Nat) :
    (ys.flatMap (fun y => xs.map (fun x => (y, x)))) = ys ×ˢ xs := rfl

theorem extract_positions_of_dvd (h w ps : Nat) (hdh : h % ps = 0)
    (hdw : w % ps = 0) :
    extract_positions h w ps =
      (strideRange (h - ps + 1) ps) ×ˢ (strideRange (w - ps + 1) ps) := by
  simp [extract_positions, hdh, hdw, primary_eq_product]

theorem covers_fixes_div {ps k y i : Nat} (hy : k * ps = y)
    (h1 : y ≤ i) (h2 : i < y + ps) : i / ps = k := by
  subst hy
  have h3 : i < (k + 1) * ps := by
    calc i < k * ps + ps := h2
    _ = (k + 1) * ps := by ring
  exact Nat.div_eq_of_lt_le h1 h3

/-- C3: on an image whose height and width are both at least `tile_size`
and exact multiples of it, `extract_patches` emits exactly
`(h / tile_size) * (w / tile_size)` tile origins, pairwise distinct, and
the pixel regions of two distinct emitted tiles never overlap. -/
theorem exact_multiple_tiling_is_partition (h w ps : Nat) (hps : 0 < ps)
    (hh : ps ≤ h) (hw : ps ≤ w) (hdh : h % ps = 0) (hdw : w % ps = 0) :
    (extract_positions h w ps).length = h / ps * (w / ps) ∧
    (extract_positions h w ps).Nodup ∧
    ∀ p ∈ extract_positions h w ps, ∀ q ∈ extract_positions h w ps, p ≠ q →
      ∀ i j, ¬(covers ps p i j ∧ covers ps q i j) := by
  rw [extract_positions_of_dvd h w ps hdh hdw]
  refine ⟨?_, ?_, ?_⟩
  · rw [List.length_product, strideRange_length, strideRange_length,
      strideRange_bound h ps hh, strideRange_bound w ps hw]
  · exact List.Nodup.product (strideRange_nodup _ ps hps) (strideRange_nodup _ ps hps)
  · rintro ⟨y1, x1⟩ hp ⟨y2, x2⟩ hq hne i j ⟨hc1, hc2⟩
    rw [List.mem_product] at hp hq
    obtain ⟨hy1, hx1⟩ := hp
    obtain ⟨hy2, hx2⟩ := hq
    obtain ⟨k1, -, hk1⟩ := (mem_strideRange_iff hh).1 hy1
    obtain ⟨k2, -, hk2⟩ := (mem_strideRange_iff hh).1 hy2
    obtain ⟨m1, -, hm1⟩ := (mem_strideRange_iff hw).1 hx1
    obtain ⟨m2, -, hm2⟩ := (mem_strideRange_iff hw).1 hx2
    obtain ⟨ha1, hb1, hc1x, hd1⟩ := hc1
    obtain ⟨ha2, hb2, hc2x, hd2⟩ := hc2
    have e1 : i / ps = k1 := covers_fixes_div hk1 ha1 hb1
    have e2 : i / ps = k2 := covers_fixes_div hk2 ha2 hb2
    have e3 : j / ps = m1 := covers_fixes_div hm1 hc1x hd1
    have e4 : j / ps = m2 := covers_fixes_div hm2 hc2x hd2
    apply hne
    have : k1 = k2 := e1 ▸ e2 ▸ rfl
    have : m1 = m2 := e3 ▸ e4 ▸ rfl
    subst hk1 hk2 hm1 hm2
    simp_all

theorem mem_addIfAbsent_of_mem {pos : List (Nat × Nat)} {p q : Nat × Nat}
    (h : q ∈ pos) : q ∈ addIfAbsent pos p := by
  unfold addIfAbsent
  split
  · exact h
  · exact List.mem_append_left _ h

theorem mem_addIfAbsent_self (pos : List (Nat × Nat)) (p : Nat × Nat) :
    p ∈ addIfAbsent pos p := by
  unfold addIfAbsent
  split
  · assumption
  · exact List.mem_append_right _ (List.mem_singleton.mpr rfl)

theorem mem_foldl_addIfAbsent {l : List Nat} {g : Nat → Nat × Nat}
    {acc : List (Nat × Nat)} {q : Nat × Nat} (hq : q ∈ acc) :
    q ∈ l.foldl (fun a x => addIfAbsent a (g x)) acc := by
  induction l generalizing acc with
  | nil => exact hq
  | cons x xs ih => exact ih (mem_addIfAbsent_of_mem hq)

theorem mem_foldl_addIfAbsent_of_elem {l : List Nat} {g : Nat → Nat × Nat}
    {acc : List (Nat × Nat)} {x : Nat} (hx : x ∈ l) :
    g x ∈ l.foldl (fun a x => addIfAbsent a (g x)) acc := by
  induction l generalizing acc with
  | nil => cases hx
  | cons a as ih =>
    rcases List.mem_cons.mp hx with h | h
    · subst h
      rw [List.foldl_cons]
      exact mem_foldl_addIfAbsent (g := g) (mem_addIfAbsent_self _ _)
    · exact ih h

theorem mem_extract_positions_primary {h w ps : Nat} {p : Nat × Nat}
    (hp : p ∈ (strideRange (h - ps + 1) ps).flatMap
      (fun y => (strideRange (w - ps + 1) ps).map (fun x => (y, x)))) :
    p ∈ extract_positions h w ps := by
  simp only [extract_positions]
  split_ifs <;>
    (repeat' first
      | exact hp
      | apply mem_addIfAbsent_of_mem
      | apply mem_foldl_addIfAbsent)

theorem mem_extract_positions_bottom {h w ps : Nat} {x : Nat}
    (hmod : h % ps ≠ 0) (hx : x ∈ strideRange (w - ps + 1) ps) :
    (h - ps, x) ∈ extract_positions h w ps := by
  simp only [extract_positions, if_pos hmod]
  split_ifs <;>
    (repeat' first
      | exact mem_foldl_addIfAbsent_of_elem hx
      | apply mem_addIfAbsent_of_mem
      | apply mem_foldl_addIfAbsent)

theorem mem_extract_positions_right {h w ps : Nat} {y : Nat}
    (hmod : w % ps ≠ 0) (hy : y ∈ strideRange (h - ps + 1) ps) :
    (y, w - ps) ∈ extract_positions h w ps := by
  simp only [extract_positions, if_pos hmod]
  split_ifs <;>
    (repeat' first
      | exact mem_foldl_addIfAbsent_of_elem hy
      | apply mem_addIfAbsent_of_mem
      | apply mem_foldl_addIfAbsent)

theorem mem_extract_positions_corner {h w ps : Nat}
    (hmodh : h % ps ≠ 0) (hmodw : w % ps ≠ 0) :
    (h - ps, w - ps) ∈ extract_positions h w ps := by
  simp only [extract_positions, if_pos hmodh, if_pos hmodw,
    if_pos (And.intro hmodh hmodw)]
  exact mem_addIfAbsent_self _ _

theorem anchor_cases {h ps i : Nat} (hps : 0 < ps) (hh : ps ≤ h) (hi : i < h) :
    (i / ps < h / ps ∧ i / ps * ps ≤ i ∧ i < i / ps * ps + ps) ∨
    (h % ps ≠ 0 ∧ h - ps ≤ i ∧ i < h - ps + ps) := by
  by_cases hY : i / ps < h / ps
  · left
    refine ⟨hY, Nat.div_mul_le_self i ps, ?_⟩
    have hmod : i % ps < ps := Nat.mod_lt i hps
    calc i = ps * (i / ps) + i % ps := (Nat.div_add_mod i ps).symm
    _ < ps * (i / ps) + ps := Nat.add_lt_add_left hmod _
    _ = i / ps * ps + ps := by rw [Nat.mul_comm]
  · right
    have hyp1 : h / ps ≤ i / ps := Nat.le_of_not_lt hY
    have hige : h / ps * ps ≤ i :=
      le_trans (Nat.mul_le_mul_right ps hyp1) (Nat.div_mul_le_self i ps)
    have hmodh : h % ps < ps := Nat.mod_lt h hps
    have hdm : ps * (h / ps) + h % ps = h := Nat.div_add_mod h ps
    have h1 : h < h / ps * ps + ps := by
      calc h = ps * (h / ps) + h % ps := hdm.symm
      _ < ps * (h / ps) + ps := Nat.add_lt_add_left hmodh _
      _ = h / ps * ps + ps := by rw [Nat.mul_comm]
    refine ⟨?_, by omega, by omega⟩
    intro h0
    rw [h0, Nat.add_zero] at hdm
    have : h ≤ i := by rw [← hdm, Nat.mul_comm]; exact hige
    omega

theorem coverage_complete_aux (h w ps : Nat) (hps : 0 < ps) (hh : ps ≤ h)
    (hw : ps ≤ w) (i j : Nat) (hi : i < h) (hj : j < w) :
    ∃ p ∈ extract_positions h w ps, covers ps p i j := by
  rcases anchor_cases hps hh hi with ⟨hY, hy1, hy2⟩ | ⟨hmodh, hy1, hy2⟩ <;>
    rcases anchor_cases hps hw hj with ⟨hX, hx1, hx2⟩ | ⟨hmodw, hx1, hx2⟩
  · refine ⟨(i / ps * ps, j / ps * ps), ?_, hy1, hy2, hx1, hx2⟩
    exact mem_extract_positions_primary (List.mem_flatMap.mpr
      ⟨i / ps * ps, mem_strideRange_of_le hh hY,
        List.mem_map_of_mem _ (mem_strideRange_of_le hw hX)⟩)
  · exact ⟨(i / ps * ps, w - ps),
      mem_extract_positions_right hmodw (mem_strideRange_of_le hh hY),
      hy1, hy2, hx1, hx2⟩
  · exact ⟨(h - ps, j / ps * ps),
      mem_extract_positions_bottom hmodh (mem_strideRange_of_le hw hX),
      hy1, hy2, hx1, hx2⟩
  · exact ⟨(h - ps, w - ps), mem_extract_positions_corner hmodh hmodw,
      hy1, hy2, hx1, hx2⟩

/-- C2: whenever the padded height or width is not an exact multiple of the
tile size, every pixel of the padded image is inside the region of at least
one tile origin emitted by `extract_patches` (coverage completeness). -/
theorem padded_coverage_complete (h w ps : Nat) (img : Nat → Nat → Nat)
    (hps : 0 < ps)
    (hmul : max h ps % ps ≠ 0 ∨ max w ps % ps ≠ 0)
    (i j : Nat) (hi : i < max h ps) (hj : j < max w ps) :
    ∃ p ∈ (extract_patches h w ps img).1, covers ps p i j := by
  have h1 : ps ≤ max h ps := le_max_right h ps
  have h2 : ps ≤ max w ps := le_max_right w ps
  simpa [extract_patches] using
    coverage_complete_aux (max h ps) (max w ps) ps hps h1 h2 i j hi hj

theorem sumAt_cons (pp : (Nat → Nat → Nat) × Nat × Nat)
    (rest : List ((Nat → Nat → Nat) × Nat × Nat)) (ps i j : Nat) :
    sumAt (pp :: rest) ps i j =
      (if covers ps pp.2 i j then pp.1 (i - pp.2.1) (j - pp.2.2) else 0) +
        sumAt rest ps i j := by
  simp [sumAt]

theorem countAt_cons (pp : (Nat → Nat → Nat) × Nat × Nat)
    (rest : List ((Nat → Nat → Nat) × Nat × Nat)) (ps i j : Nat) :
    countAt (pp :: rest) ps i j =
      (if covers ps pp.2 i j then 1 else 0) + countAt rest ps i j := by
  simp [countAt]

theorem foldl_accumPatch (preds : List ((Nat → Nat → Nat) × Nat × Nat))
    (ps : Nat) (f g : Nat → Nat → Nat) (i j : Nat) :
    (preds.foldl (accumPatch ps) (f, g)).1 i j = f i j + sumAt preds ps i j ∧
    (preds.foldl (accumPatch ps) (f, g)).2 i j = g i j + countAt preds ps i j := by
  induction preds generalizing f g with
  | nil => simp [sumAt, countAt]
  | cons pp rest ih =>
    rw [List.foldl_cons, sumAt_cons, countAt_cons]
    have h := ih (accumPatch ps (f, g) pp).1 (accumPatch ps (f, g) pp).2
    constructor
    · rw [h.1]
      show (if covers ps pp.2 i j then f i j + pp.1 (i - pp.2.1) (j - pp.2.2)
        else f i j) + sumAt rest ps i j = _
      split_ifs <;> ring
    · rw [h.2]
      show (if covers ps pp.2 i j then g i j + 1 else g i j) +
        countAt rest ps i j = _
      split_ifs <;> ring

theorem reconstruct_eq_avg (preds : List ((Nat → Nat → Nat) × Nat × Nat))
    (ps i j : Nat) :
    reconstruct_from_patches preds ps i j =
      sumAt preds ps i j / max (countAt preds ps i j) 1 := by
  have h := foldl_accumPatch preds ps (fun _ _ => 0) (fun _ _ => 0) i j
  simp only [reconstruct_from_patches]
  rw [h.1, h.2, Nat.zero_add, Nat.zero_add]

theorem sumAt_const {preds : List ((Nat → Nat → Nat) × Nat × Nat)}
    {ps c i j : Nat} (hconst : ∀ pp ∈ preds, ∀ a b, pp.1 a b = c) :
    sumAt preds ps i j = c * countAt preds ps i j := by
  induction preds with
  | nil => simp [sumAt, countAt]
  | cons pp rest ih =>
    have hc := hconst pp (List.mem_cons_self pp rest)
    have ihr := ih (fun q hq => hconst q (List.mem_cons_of_mem _ hq))
    rw [sumAt_cons, countAt_cons, ihr]
    split_ifs
    · rw [hc]; ring
    · ring

theorem reconstruct_const_at {preds : List ((Nat → Nat → Nat) × Nat × Nat)}
    {ps c i j : Nat} (hconst : ∀ pp ∈ preds, ∀ a b, pp.1 a b = c)
    (hcov : 1 ≤ countAt preds ps i j) :
    reconstruct_from_patches preds ps i j = c := by
  rw [reconstruct_eq_avg, sumAt_const hconst, Nat.max_eq_left hcov,
    Nat.mul_div_cancel _ hcov]

/-- C1 (amended): for every sequence of predictions with matching origins,
the Reconstructor's output value at each pixel equals the accumulated sum
of predicted class values divided by `max(overlap count, 1)` with the
quotient truncated towards zero (the `astype(np.uint8)` cast), not rounded
to nearest. -/
theorem reconstruct_is_truncated_average
    (preds : List ((Nat → Nat → Nat) × Nat × Nat)) (ps i j : Nat) :
    reconstruct_from_patches preds ps i j =
      sumAt preds ps i j / max (countAt preds ps i j) 1 :=
  reconstruct_eq_avg preds ps i j

/-- C1 counterexample: at pixel `(0, 1)` of the concrete overlapping input
`cexPreds` the sum is 3 and the count is 2; the code outputs the truncation
`⌊3 / 2⌋ = 1`, not `round(3 / 2) = 2` as the claim states. -/
theorem reconstruct_round_counterexample :
    reconstruct_from_patches cexPreds 2 0 1 ≠
      roundDiv (sumAt cexPreds 2 0 1) (max (countAt cexPreds 2 0 1) 1) := by
  decide

/-- C7: reconstructing predictions that are all the constant class value
`c`, over a tiling in which every pixel of the `h × w` extent is covered by
at least one tile, yields a mask equal to `c` at every pixel. -/
theorem constant_predictions_identity
    (preds : List ((Nat → Nat → Nat) × Nat × Nat)) (h w ps c : Nat)
    (hconst : ∀ pp ∈ preds, ∀ a b, pp.1 a b = c)
    (hcov : ∀ i < h, ∀ j < w, 1 ≤ countAt preds ps i j) :
    ∀ i < h, ∀ j < w, reconstruct_from_patches preds ps i j = c :=
  fun i hi j hj => reconstruct_const_at hconst (hcov i hi j hj)

/-- C7 witness: the single constant class-3 prediction of `constPreds`
covers the whole 2×2 extent, and reconstruction yields 3 everywhere. -/
theorem constant_predictions_identity_witness :
    (∀ pp ∈ constPreds, ∀ a b, pp.1 a b = 3) ∧
    (∀ i < 2, ∀ j < 2, 1 ≤ countAt constPreds 2 i j) ∧
    (∀ i < 2, ∀ j < 2, reconstruct_from_patches constPreds 2 i j = 3) := by
  have hconst : ∀ pp ∈ constPreds, ∀ a b : Nat, pp.1 a b = 3 := by
    intro pp hpp a b
    rw [constPreds, List.mem_singleton] at hpp
    subst hpp
    rfl
  exact ⟨hconst, by decide,
    constant_predictions_identity constPreds 2 2 2 3 hconst (by decide)⟩

/-- C3 witness: a 4×6 image with tile size 2 yields the exact
non-overlapping 2×3 grid of origins. -/
theorem exact_multiple_tiling_witness :
    0 < 2 ∧ 2 ≤ 4 ∧ 2 ≤ 6 ∧ 4 % 2 = 0 ∧ 6 % 2 = 0 ∧
    ((extract_positions 4 6 2).length = 4 / 2 * (6 / 2) ∧
      (extract_positions 4 6 2).Nodup ∧
      ∀ p ∈ extract_positions 4 6 2, ∀ q ∈ extract_positions 4 6 2, p ≠ q →
        ∀ i j, ¬(covers 2 p i j ∧ covers 2 q i j)) :=
  ⟨by decide, by decide, by decide, by decide, by decide,
    exact_multiple_tiling_is_partition 4 6 2 (by decide) (by decide)
      (by decide) (by decide) (by decide)⟩

/-- C4: along every trace either background job can produce — the clean run,
or an exception raised after any prefix of the job's updates — the progress
field is monotonically non-decreasing, no update follows a record whose
status is `completed` or `error`, and a transition into `error` keeps the
progress value it found. -/
theorem task_lifecycle_monotone (k : Nat) (msg : String) :
    (k ≤ 3 →
      progressMonotone (uploadJobTrace (some (k, msg))) ∧
      noStepFromTerminal (uploadJobTrace (some (k, msg))) ∧
      errorFreezesProgress (uploadJobTrace (some (k, msg)))) ∧
    (k ≤ 4 →
      progressMonotone (urlJobTrace (some (k, msg))) ∧
      noStepFromTerminal (urlJobTrace (some (k, msg))) ∧
      errorFreezesProgress (urlJobTrace (some (k, msg)))) ∧
    (progressMonotone (uploadJobTrace none) ∧
      noStepFromTerminal (uploadJobTrace none) ∧
      errorFreezesProgress (uploadJobTrace none)) ∧
    (progressMonotone (urlJobTrace none) ∧
      noStepFromTerminal (urlJobTrace none) ∧
      errorFreezesProgress (urlJobTrace none)) := by
  refine ⟨fun hk => ?_, fun hk => ?_, ?_, ?_⟩ <;>
    first
    | (interval_cases k <;>
        simp [uploadJobTrace, urlJobTrace, uploadSteps, urlSteps, traceAux,
          applySteps, progressMonotone, noStepFromTerminal,
          errorFreezesProgress, isTerminal, setError, stepProcessing,
          stepSegmenting, stepGenerating, stepCompleted, stepDownloading,
          uploadInit, urlInit, urlErrMsg, List.chain'_cons])
    | simp [uploadJobTrace, urlJobTrace, uploadSteps, urlSteps, traceAux,
        applySteps, progressMonotone, noStepFromTerminal,
        errorFreezesProgress, isTerminal, setError, stepProcessing,
        stepSegmenting, stepGenerating, stepCompleted, stepDownloading,
        uploadInit, urlInit, urlErrMsg, List.chain'_cons]

/-- C4 witness: the URL job interrupted after its second update. -/
theorem task_lifecycle_monotone_witness :
    2 ≤ 4 ∧
    (progressMonotone (urlJobTrace (some (2, "boom"))) ∧
      noStepFromTerminal (urlJobTrace (some (2, "boom"))) ∧
      errorFreezesProgress (urlJobTrace (some (2, "boom")))) :=
  ⟨by decide, (task_lifecycle_monotone 2 "boom").2.1 (by decide)⟩

/-- C5: an exception raised anywhere inside either background job is
contained by the job's handler: the trace still ends in a well-defined
record whose status is `error`, whose message is the handler's
human-readable text around the exception string, and which carries no
result payload. -/
theorem job_errors_contained (k : Nat) (msg : String) :
    (k ≤ 3 →
      uploadJobTrace (some (k, msg)) ≠ [] ∧
      ((uploadJobTrace (some (k, msg))).getLastD default).status = "error" ∧
      ((uploadJobTrace (some (k, msg))).getLastD default).result = none ∧
      ((uploadJobTrace (some (k, msg))).getLastD default).message =
        "Processing error: " ++ msg) ∧
    (k ≤ 4 →
      urlJobTrace (some (k, msg)) ≠ [] ∧
      ((urlJobTrace (some (k, msg))).getLastD default).status = "error" ∧
      ((urlJobTrace (some (k, msg))).getLastD default).result = none ∧
      ((urlJobTrace (some (k, msg))).getLastD default).message =
        urlErrMsg k msg) := by
  refine ⟨fun hk => ?_, fun hk => ?_⟩ <;>
    (interval_cases k <;>
      simp [uploadJobTrace, urlJobTrace, uploadSteps, urlSteps, traceAux,
        applySteps, setError, stepProcessing, stepSegmenting, stepGenerating,
        stepCompleted, stepDownloading, uploadInit, urlInit, urlErrMsg])

/-- C5 witness: the upload job failing while loading the image. -/
theorem job_errors_contained_witness :
    1 ≤ 3 ∧
    (uploadJobTrace (some (1, "bad file")) ≠ [] ∧
      ((uploadJobTrace (some (1, "bad file"))).getLastD default).status = "error" ∧
      ((uploadJobTrace (some (1, "bad file"))).getLastD default).result = none ∧
      ((uploadJobTrace (some (1, "bad file"))).getLastD default).message =
        "Processing error: " ++ "bad file") :=
  ⟨by decide, (job_errors_contained 1 "bad file").1 (by decide)⟩

theorem round2_nonneg {q : ℚ} (h : 0 ≤ q) : 0 ≤ round2 q := by
  unfold round2
  have h1 : (0 : ℤ) ≤ round (q * 100) := by
    rw [round_eq]
    apply Int.floor_nonneg.mpr
    nlinarith
  have h2 : (0 : ℚ) ≤ (round (q * 100) : ℚ) := by exact_mod_cast h1
  positivity

theorem round2_le_100 {q : ℚ} (h : q ≤ 100) : round2 q ≤ 100 := by
  unfold round2
  have hfloor : ⌊(10000 : ℚ) + 1 / 2⌋ = 10000 := by
    apply Int.floor_eq_iff.mpr
    norm_num
  have h1 : round (q * 100) ≤ (10000 : ℤ) := by
    rw [round_eq]
    calc ⌊q * 100 + 1 / 2⌋ ≤ ⌊(10000 : ℚ) + 1 / 2⌋ :=
      Int.floor_le_floor (by linarith)
    _ = 10000 := hfloor
  rw [div_le_iff₀ (by norm_num : (0 : ℚ) < 100)]
  calc (round (q * 100) : ℚ) ≤ ((10000 : ℤ) : ℚ) := by exact_mod_cast h1
  _ = 100 * 100 := by norm_num

/-- C6: for every non-empty mask the vegetation percentage
`round(100 * count / total, 2)` lies in `[0, 100]`; it is exactly 0 when no
pixel class is in the vegetation set and exactly 100 when every pixel class
is. -/
theorem vegetation_percentage_bounds (mask : List Nat) (hne : mask ≠ []) :
    0 ≤ vegetation_percentage mask ∧ vegetation_percentage mask ≤ 100 ∧
    ((∀ c ∈ mask, isVeg c = false) → vegetation_percentage mask = 0) ∧
    ((∀ c ∈ mask, isVeg c = true) → vegetation_percentage mask = 100) := by
  have hlen : 0 < mask.length := List.length_pos.mpr hne
  have hlenq : (0 : ℚ) < (mask.length : ℚ) := by exact_mod_cast hlen
  have hcount : vegCount mask ≤ mask.length := List.length_filter_le _ _
  have hq0 : 0 ≤ (vegCount mask : ℚ) / (mask.length : ℚ) * 100 := by positivity
  have hq100 : (vegCount mask : ℚ) / (mask.length : ℚ) * 100 ≤ 100 := by
    rw [div_mul_eq_mul_div, div_le_iff₀ hlenq]
    have hc : (vegCount mask : ℚ) ≤ (mask.length : ℚ) := by exact_mod_cast hcount
    nlinarith
  refine ⟨round2_nonneg hq0, round2_le_100 hq100, ?_, ?_⟩
  · intro hnone
    have hzero : vegCount mask = 0 := by
      unfold vegCount
      rw [List.filter_eq_nil_iff.mpr (by simpa using hnone)]
      rfl
    unfold vegetation_percentage
    rw [hzero]
    norm_num [round2, round_zero]
  · intro hall
    have hfull : vegCount mask = mask.length := by
      unfold vegCount
      rw [List.filter_eq_self.mpr hall]
    unfold vegetation_percentage
    rw [hfull, div_self (ne_of_gt hlenq), one_mul]
    have hr : round ((100 : ℚ) * 100) = (10000 : ℤ) := by
      have he : ((100 : ℚ) * 100) = ((10000 : ℤ) : ℚ) := by norm_num
      rw [he, round_intCast]
    rw [round2, hr]
    norm_num

/-- C6 witness: the two-pixel mask `[0, 3]` (one background, one
vegetation pixel). -/
theorem vegetation_percentage_bounds_witness :
    ([0, 3] : List Nat) ≠ [] ∧
    (0 ≤ vegetation_percentage [0, 3] ∧ vegetation_percentage [0, 3] ≤ 100 ∧
      ((∀ c ∈ ([0, 3] : List Nat), isVeg c = false) →
        vegetation_percentage [0, 3] = 0) ∧
      ((∀ c ∈ ([0, 3] : List Nat), isVeg c = true) →
        vegetation_percentage [0, 3] = 100)) :=
  ⟨by decide, vegetation_percentage_bounds [0, 3] (by decide)⟩

theorem reflectIdx_lt {n : Nat} (hn : 0 < n) (i : Nat) : reflectIdx n i < n := by
  simp only [reflectIdx]
  split_ifs with h1 h2
  · omega
  · exact h2
  · have hp : 0 < 2 * (n - 1) := by omega
    have hm := Nat.mod_lt i hp
    omega

theorem reflectIdx_eq_self {n i : Nat} (h : i < n) : reflectIdx n i = i := by
  simp only [reflectIdx]
  split_ifs with h1 h2
  · omega
  · exact Nat.mod_eq_of_lt (by omega)
  · rw [Nat.mod_eq_of_lt (by omega)] at h2
    omega

/-- C8: when either dimension is smaller than `tile_size`,
`extract_patches` pads the image before any tile is cut: the padded shape
reaches at least `tile_size` on each axis, pixels of the original extent
are unchanged, and every padded pixel replicates some original pixel
(reflect-style edge extension, never a zero fill). -/
theorem small_image_reflect_padding (h w ps : Nat) (img : Nat → Nat → Nat)
    (hh : 0 < h) (hw : 0 < w) (hsmall : h < ps ∨ w < ps) :
    ps ≤ (extract_patches h w ps img).2.1.1 ∧
    ps ≤ (extract_patches h w ps img).2.1.2 ∧
    (∀ i j, i < h → j < w → (extract_patches h w ps img).2.2 i j = img i j) ∧
    (∀ i j, ∃ a b, a < h ∧ b < w ∧
      (extract_patches h w ps img).2.2 i j = img a b) := by
  have hpad : (extract_patches h w ps img).2.2 = padReflect h w img := by
    simp [extract_patches, hsmall]
  refine ⟨?_, ?_, ?_, ?_⟩
  · simp [extract_patches, le_max_right]
  · simp [extract_patches, le_max_right]
  · intro i j hi hj
    rw [hpad]
    simp [padReflect, reflectIdx_eq_self hi, reflectIdx_eq_self hj]
  · intro i j
    rw [hpad]
    exact ⟨reflectIdx h i, reflectIdx w j, reflectIdx_lt hh i,
      reflectIdx_lt hw j, rfl⟩

/-- C8 witness: a 1×3 image with tile size 2. -/
theorem small_image_reflect_padding_witness :
    0 < 1 ∧ 0 < 3 ∧ ((1 : Nat) < 2 ∨ (3 : Nat) < 2) ∧
    (2 ≤ (extract_patches 1 3 2 (fun i j => i + j + 5)).2.1.1 ∧
      2 ≤ (extract_patches 1 3 2 (fun i j => i + j + 5)).2.1.2 ∧
      (∀ i j, i < 1 → j < 3 →
        (extract_patches 1 3 2 (fun i j => i + j + 5)).2.2 i j = i + j + 5) ∧
      (∀ i j, ∃ a b, a < 1 ∧ b < 3 ∧
        (extract_patches 1 3 2 (fun i j => i + j + 5)).2.2 i j = a + b + 5)) :=
  ⟨by decide, by decide, by decide,
    small_image_reflect_padding 1 3 2 (fun i j => i + j + 5) (by decide)
      (by decide) (by decide)⟩

/-- C9: for every class value in the model's range `0..6`, the binary
vegetation mask marks the pixel if and only if its class is nonzero: the
configured `VEGETATION_CLASSES` is exactly the set of non-background
classes. -/
theorem vegetation_iff_nonzero (c : Nat) (hc : c ≤ 6) :
    isVeg c = true ↔ c ≠ 0 := by
  revert hc
  revert c
  decide

/-- C9 witness: class 3 is vegetation and nonzero. -/
theorem vegetation_iff_nonzero_witness :
    (3 : Nat) ≤ 6 ∧ (isVeg 3 = true ↔ (3 : Nat) ≠ 0) :=
  ⟨by decide, vegetation_iff_nonzero 3 (by decide)⟩

theorem take4_of_six (a b c d e f : Char) (R : List Char) :
    ([a, b, c, d, e, f] ++ R).take 4 = [a, b, c, d] := by
  rw [List.take_append_of_le_length (by simp)]
  rfl

theorem take5_of_six (a b c d e f : Char) (R : List Char) :
    ([a, b, c, d, e, f] ++ R).take 5 = [a, b, c, d, e] := by
  rw [List.take_append_of_le_length (by simp)]
  rfl

/-- C10: the URL job saves its download at `uploads/{task_id}_input`, whose
lower-cased form never ends in `.tif` or `.tiff` whatever the task id, so
the rasterio (geospatial) loading branch is never taken for URL tasks and
the standard PIL branch always is. -/
theorem url_download_never_rasterio (taskId : List Char) :
    usesRasterio (urlInputPath taskId) = false := by
  have hsuf : (List.map Char.toLower ['_', 'i', 'n', 'p', 'u', 't']).reverse =
      ['t', 'u', 'p', 'n', 'i', '_'] := by decide
  unfold usesRasterio urlInputPath endsWithL toLowerL
  rw [List.map_append, List.map_append, List.reverse_append,
    List.reverse_append, hsuf]
  rw [show (['.', 't', 'i', 'f'] : List Char).length = 4 from rfl,
    show (['.', 't', 'i', 'f', 'f'] : List Char).length = 5 from rfl,
    take4_of_six, take5_of_six]
  decide

/-- C2 witness: a 3×3 image with tile size 2 has non-multiple padded
dimensions, and its bottom-left pixel `(2, 0)` is covered by an emitted
tile. -/
theorem padded_coverage_complete_witness :
    0 < 2 ∧ (max 3 2 % 2 ≠ 0 ∨ max 3 2 % 2 ≠ 0) ∧ 2 < max 3 2 ∧ 0 < max 3 2 ∧
    ∃ p ∈ (extract_patches 3 3 2 (fun _ _ => 0)).1, covers 2 p 2 0 :=
  ⟨by decide, by decide, by decide, by decide,
    padded_coverage_complete 3 3 2 (fun _ _ => 0) (by decide) (by decide)
      2 0 (by decide) (by decide)⟩

end VegSeg
